import Mathlib

/-!
Verification of the consensus repository's commit handling
(`bft/src/core/commit.rs`) and the transaction-result storage codec
(`dpos/src/blockchain/transaction.rs`) against its specification.

Byte strings are modelled as `List Nat`; Rust `String` values are modelled by
their UTF-8 byte lists, so the external string codec is the identity on bytes.
Rust functions that can panic are modelled as `Option`-returning functions,
`none` standing for a panic.
-/

namespace Dpos

/-- Byte strings. -/
abbrev Bytes := List Nat

/-- `TransactionErrorType` from `dpos/src/blockchain/transaction.rs`:
`Panic` or a user-defined `Code(u8)`.  The `u8` payload is a `Nat`; the status
domain restricts it to `0..=255`. -/
inductive TransactionErrorType where
  | Panic : TransactionErrorType
  | Code : Nat → TransactionErrorType
deriving DecidableEq

/-- `TransactionError`: an error type plus an optional description (a string,
modelled by its UTF-8 bytes). -/
structure TransactionError where
  error_type : TransactionErrorType
  description : Option Bytes
deriving DecidableEq

/-- `TransactionResult = Result<(), TransactionError>`. -/
inductive TransactionResult where
  | ok : TransactionResult
  | err : TransactionError → TransactionResult
deriving DecidableEq

/-- `MAX_ERROR_CODE: u16 = u8::MAX as u16`. -/
def MAX_ERROR_CODE : Nat := 255

/-- `TRANSACTION_STATUS_OK: u16 = MAX_ERROR_CODE + 1`. -/
def TRANSACTION_STATUS_OK : Nat := MAX_ERROR_CODE + 1

/-- `TRANSACTION_STATUS_PANIC: u16 = TRANSACTION_STATUS_OK + 1`. -/
def TRANSACTION_STATUS_PANIC : Nat := TRANSACTION_STATUS_OK + 1

/-- `status_as_u16` from `transaction.rs`. -/
def status_as_u16 : TransactionResult → Nat
  | .ok => TRANSACTION_STATUS_OK
  | .err e =>
    match e.error_type with
    | .Panic => TRANSACTION_STATUS_PANIC
    | .Code c => c

/-- Modelled from the spec: exonum's `StorageValue for u16` encoder
(two bytes, little-endian); the impl lives outside this repository. -/
def u16_into_bytes (v : Nat) : Bytes := [v % 256, v / 256 % 256]

/-- Modelled from the spec: exonum's `StorageValue for u16` decoder, reading
the first two bytes little-endian; a shorter input panics (`none`). -/
def u16_from_bytes (b : Bytes) : Option Nat :=
  match b with
  | b0 :: b1 :: _ => some (b0 + 256 * b1)
  | _ => none

/-- Modelled from the spec: exonum's `StorageValue for bool` encoder
(one byte, `1` for `true`). -/
def bool_into_bytes (v : Bool) : Bytes := [if v then 1 else 0]

/-- Modelled from the spec: exonum's `StorageValue for bool` decoder
(first byte compared with `1`); an empty input panics (`none`). -/
def bool_from_bytes (b : Bytes) : Option Bool :=
  match b with
  | b0 :: _ => some (b0 == 1)
  | _ => none

/-- `self.err().and_then(|e| e.description)`: the description of the error
part, when present. -/
def TransactionResult.errDescription : TransactionResult → Option Bytes
  | .ok => none
  | .err e => e.description

/-- `StorageValue::into_bytes` for `TransactionResult`: the `u16` status,
then a `bool` flag, then the optional description bytes. -/
def TransactionResult.into_bytes (r : TransactionResult) : Bytes :=
  let res := u16_into_bytes (status_as_u16 r)
  match r.errDescription with
  | some description => res ++ bool_into_bytes true ++ description
  | none => res ++ bool_into_bytes false

/-- The `match main_part` arm of `TransactionResult::from_bytes`:
`0..=255 ↦ Err(Code)`, `256 ↦ Ok`, `257 ↦ Err(Panic)`, anything larger
panics (`none`, source: `panic!("Invalid TransactionResult value")`). -/
def decode_main (main_part : Nat) (description : Option Bytes) :
    Option TransactionResult :=
  if main_part ≤ MAX_ERROR_CODE then
    some (.err ⟨.Code main_part, description⟩)
  else if main_part = TRANSACTION_STATUS_OK then
    some .ok
  else if main_part = TRANSACTION_STATUS_PANIC then
    some (.err ⟨.Panic, description⟩)
  else
    none

/-- `StorageValue::from_bytes` for `TransactionResult`.  The source slices
`bytes[2..3]` before matching, so any input shorter than 3 bytes panics. -/
def TransactionResult.from_bytes (bytes : Bytes) : Option TransactionResult := do
  let main_part ← u16_from_bytes bytes
  let flagSlice ← if bytes.length ≥ 3 then some ((bytes.drop 2).take 1) else none
  let flag ← bool_from_bytes flagSlice
  let description := if flag then some (bytes.drop 3) else none
  decode_main main_part description

/-- A `TransactionResult` whose error code (if any) fits in a `u8`. -/
def TransactionResult.statusValid : TransactionResult → Prop
  | .ok => True
  | .err e =>
    match e.error_type with
    | .Panic => True
    | .Code c => c ≤ 255

instance (r : TransactionResult) : Decidable r.statusValid := by
  cases r with
  | ok => exact isTrue trivial
  | err e =>
    cases h : e.error_type with
    | Panic => exact isTrue (by simp [TransactionResult.statusValid, h])
    | Code c =>
      simp only [TransactionResult.statusValid, h]
      infer_instance

/-- The pure status domain `{Ok, Panic, Code(c)}` (descriptions ignored). -/
inductive TxStatus where
  | ok : TxStatus
  | panic : TxStatus
  | code : Nat → TxStatus
deriving DecidableEq

/-- Validity of a status: a code must fit in a `u8`. -/
def TxStatus.valid : TxStatus → Prop
  | .ok => True
  | .panic => True
  | .code c => c ≤ 255

instance (s : TxStatus) : Decidable s.valid := by
  cases s with
  | ok => exact isTrue trivial
  | panic => exact isTrue trivial
  | code c => simp only [TxStatus.valid]; infer_instance

/-- Attach a description to a status, producing the `TransactionResult` the
decoder builds for it (`Ok` never carries a description). -/
def TxStatus.withDescription : TxStatus → Option Bytes → TransactionResult
  | .ok, _ => .ok
  | .panic, d => .err ⟨.Panic, d⟩
  | .code c, d => .err ⟨.Code c, d⟩

/-- `status_as_u16` restricted to the status domain. -/
def TxStatus.as_u16 (s : TxStatus) : Nat :=
  status_as_u16 (s.withDescription none)

end Dpos

namespace Bft

/-- Byte strings. -/
abbrev Bytes := List Nat

/-- Block digests (32-byte hashes), abstracted. -/
abbrev Hash := Nat

/-- Validator addresses. -/
abbrev Address := Nat

/-- A height/round pair (`View` in `bft/src/consensus/types.rs`). -/
structure View where
  height : Nat
  round : Nat
deriving DecidableEq

/-- Lexicographic strict order on views (spec §3). -/
def View.lt (a b : View) : Bool :=
  a.height < b.height || (a.height == b.height && a.round < b.round)

/-- A `Subject`: the (view, digest) pair under vote. -/
structure Subject where
  view : View
  digest : Hash
deriving DecidableEq

/-- Gossip message kinds (`MessageType` in the protocol module). -/
inductive MessageType where
  | Preprepare | Prepare | Commit | RoundChange
deriving DecidableEq

/-- Wire tag of a message kind. -/
def MessageType.toNat : MessageType → Nat
  | .Preprepare => 0
  | .Prepare => 1
  | .Commit => 2
  | .RoundChange => 3

/-- Modelled from the spec: (§4.4) the five states of the round state
machine, in protocol order. -/
inductive State where
  | AcceptRequest | Preprepared | Prepared | Committed | FinalCommitted
deriving DecidableEq

/-- Rank of a state in the protocol order. -/
def State.rank : State → Nat
  | .AcceptRequest => 0
  | .Preprepared => 1
  | .Prepared => 2
  | .Committed => 3
  | .FinalCommitted => 4

/-- The strict order `<` on states used by `self.state < State::Committed`. -/
def State.lt (a b : State) : Prop := a.rank < b.rank

instance (a b : State) : Decidable (State.lt a b) := by
  simp only [State.lt]; infer_instance

/-- Modelled from the spec: (§6 Signer) an idealized signature that records
the signer's secret key and the exact bytes that were signed. -/
structure Signature where
  secret : Nat
  data : Bytes
deriving DecidableEq

/-- The address derived from a secret key (idealized: the identity). -/
def addressOfSecret (s : Nat) : Address := s

/-- Modelled from the spec: (§6) `sign(bytes) → Signature`. -/
def sign (secret : Nat) (data : Bytes) : Signature := ⟨secret, data⟩

/-- Modelled from the spec: (§6) `recover(sig, bytes) → Address`; recovery
yields the signer's address exactly when the bytes match what was signed. -/
def recover (sig : Signature) (data : Bytes) : Option Address :=
  if sig.data = data then some (addressOfSecret sig.secret) else none

/-- Modelled from the spec: (§6) `verify(addr, sig, bytes)`, true iff the
recovered address equals `addr`. -/
def verify_address (addr : Address) (sig : Signature) (data : Bytes) : Bool :=
  recover sig data == some addr

/-- `digest.as_ref()`: the bytes of a hash. -/
def hashBytes (h : Hash) : Bytes := [h]

/-- Modelled from the spec: (§4.6) `encrypt_commit_bytes(digest, secret)`
from `types/votes.rs` (not under `src/`) signs the digest bytes alone. -/
def encrypt_commit_bytes (digest : Hash) (secret : Nat) : Signature :=
  sign secret (hashBytes digest)

/-- Modelled from the spec: (§4.2) canonical `Subject` encoding
`H ‖ R ‖ Digest` (one cell per field). -/
def Subject.into_bytes (s : Subject) : Bytes :=
  [s.view.height, s.view.round, s.digest]

/-- Modelled from the spec: (§4.2) canonical `Subject` decoding; a malformed
payload fails (the source `Subject::from` panics there). -/
def Subject.from_bytes (b : Bytes) : Option Subject :=
  match b with
  | [h, r, d] => some ⟨⟨h, r⟩, d⟩
  | _ => none

/-- A gossip message: kind, payload, authentication signature, and the
optional commit seal (`GossipMessage` in the protocol module). -/
structure GossipMessage where
  msgType : MessageType
  msg : Bytes
  signature : Option Signature
  commit_seal : Option Signature
deriving DecidableEq

/-- Modelled from the spec: (§4.2) the canonical prefix that `sign(msg)`
covers — everything except `signature` and `commit_seal`. -/
def GossipMessage.signedPayload (m : GossipMessage) : Bytes :=
  m.msgType.toNat :: m.msg

/-- Modelled from the spec: (§4.2) `msg.address()` recovers the sender from
`signature` over the canonical prefix; failure is `BadSignature`. -/
def GossipMessage.address (m : GossipMessage) : Except String Address :=
  match m.signature with
  | none => .error "BadSignature"
  | some sig =>
    match recover sig m.signedPayload with
    | some a => .ok a
    | none => .error "BadSignature"

/-- `GossipMessage::new(type, payload, seal)`: the signature is attached
later, by `broadcast`. -/
def GossipMessage.new (t : MessageType) (payload : Bytes)
    (sl : Option Signature) : GossipMessage :=
  ⟨t, payload, none, sl⟩

/-- Modelled from the spec: (§3, §4.3) a `MessageSet` (`Votes`) — the
validator membership of the round plus the sender-keyed votes collected so
far, in insertion order. -/
structure Votes where
  validators : List Address
  messages : List (Address × GossipMessage)
deriving DecidableEq

/-- `len()`: number of collected votes. -/
def Votes.len (v : Votes) : Nat := v.messages.length

/-- Whether a sender already contributed a vote. -/
def Votes.sendersContain (v : Votes) (a : Address) : Bool :=
  (v.messages.map Prod.fst).contains a

/-- Modelled from the spec: (§4.3) `add(msg)` — recover the sender, fail
with `Duplicate` if it already voted, with `UnknownSender` if it is not a
validator, otherwise append. -/
def Votes.add (v : Votes) (msg : GossipMessage) : Except String Votes :=
  match msg.address with
  | .error e => .error e
  | .ok sender =>
    if v.sendersContain sender then .error "Duplicate"
    else if v.validators.contains sender then
      .ok { v with messages := v.messages ++ [(sender, msg)] }
    else .error "UnknownSender"

/-- Modelled from the spec: (§3, §4.1) the ordered validator membership. -/
structure ValidatorSet where
  validators : List Address
deriving DecidableEq

/-- Modelled from the spec: (§4.1) `two_thirds_majority() = ⌈2N/3⌉`. -/
def ValidatorSet.two_thirds_majority (vs : ValidatorSet) : Nat :=
  (2 * vs.validators.length + 2) / 3

/-- A validator: (index, address) (spec §3). -/
structure Validator where
  index : Nat
  address : Address
deriving DecidableEq

/-- A proposal: its view and the proposed block, abstracted to the block's
hash (`proposal.block().hash()`). -/
structure Proposal where
  view : View
  blockHash : Hash
deriving DecidableEq

/-- Modelled from the spec: (§3) the per-round volatile state. -/
structure RoundState where
  view : View
  proposal : Option Proposal
  locked_hash : Option Hash
  prepares : Votes
  commits : Votes
deriving DecidableEq

/-- `current_state.subject()`: the subject of the current proposal, when a
proposal exists (modelled from the spec §3). -/
def RoundState.subject (rs : RoundState) : Option Subject :=
  rs.proposal.map (fun p => ⟨rs.view, p.blockHash⟩)

/-- Modelled from the spec: (T4/T5) `lock_hash()` sets `locked_hash` to the
current proposal's digest (idempotent); without a proposal it is a no-op. -/
def RoundState.lock_hash (rs : RoundState) : RoundState :=
  match rs.proposal with
  | some p => { rs with locked_hash := some p.blockHash }
  | none => rs

/-- The node's key pair (only the secret is needed by the model). -/
structure KeyPair where
  secret : Nat
deriving DecidableEq

/-- The consensus core: key pair, validator set, state-machine state, round
state, and the outbox of broadcast messages (the network collaborator). -/
structure Core where
  keypair : KeyPair
  val_set : ValidatorSet
  state : State
  current_state : RoundState
  outbox : List GossipMessage
deriving DecidableEq

/-- Modelled from the spec: (§4.1) `check_message` classifies the message's
view against the current view — greater is `future`, smaller is `stale`. -/
def Core.check_message (core : Core) (_t : MessageType) (v : View) :
    Except String Unit :=
  if View.lt core.current_state.view v then .error "future"
  else if View.lt v core.current_state.view then .error "stale"
  else .ok ()

/-- Modelled from the spec: (§4.2, §6) `broadcast` signs the canonical
prefix with the node's key and hands the message to the broadcaster. -/
def Core.broadcast (core : Core) (msg : GossipMessage) : Core :=
  let signed := { msg with
    signature := some (sign core.keypair.secret msg.signedPayload) }
  { core with outbox := core.outbox ++ [signed] }

/-- `broadcast_commit` from `commit.rs`: seal the subject's digest with the
node's key, encode the subject, and broadcast a Commit message.  The
`digest` argument is unused by the source body. -/
def Core.broadcast_commit (core : Core) (subject : Subject) (_digest : Hash) :
    Core :=
  let commit_seal := encrypt_commit_bytes subject.digest core.keypair.secret
  let encoded_subject := subject.into_bytes
  let msg := GossipMessage.new MessageType.Commit encoded_subject
    (some commit_seal)
  core.broadcast msg

/-- `send_commit` from `commit.rs`: broadcast a commit for the current
proposal; panics (`none`) when there is no proposal or subject. -/
def Core.send_commit (core : Core) : Option Core :=
  match core.current_state.proposal, core.current_state.subject with
  | some proposal, some subject =>
    some (core.broadcast_commit subject proposal.blockHash)
  | _, _ => none

/-- `send_commit_for_old_block` from `commit.rs`: synthesize a subject for
the given (prior) view and digest and broadcast a commit for it. -/
def Core.send_commit_for_old_block (core : Core) (view : View) (digest : Hash) :
    Core :=
  core.broadcast_commit ⟨view, digest⟩ digest

/-- `verify_commit` from `commit.rs`: seal present, seal verifies for the
sender over the subject's digest bytes, subject matches the current
subject — in that order; `current_state.subject().unwrap()` panics (`none`)
when no proposal exists. -/
def Core.verify_commit (core : Core) (commit_seal : Option Signature)
    (commit_subject : Subject) (sender : Address) (_src : Validator) :
    Option (Except String Unit) :=
  match commit_seal with
  | none => some (.error "commit seal is nil")
  | some sl =>
    let sign_message := hashBytes commit_subject.digest
    if verify_address sender sl sign_message = false then
      some (.error "message's sender should be commit seal")
    else
      match core.current_state.subject with
      | none => none
      | some current_subject =>
        if current_subject.digest ≠ commit_subject.digest
            ∨ current_subject.view ≠ commit_subject.view then
          some (.error "Inconsistent subjects between commit and proposal")
        else
          some (.ok ())

/-- `accept` from `commit.rs`: insert the message into the round state's
commit set (the `src` argument is ignored by the source). -/
def Core.accept (core : Core) (msg : GossipMessage) (_src : Validator) :
    Except String Core :=
  match core.current_state.commits.add msg with
  | .error e => .error e
  | .ok commits =>
    .ok { core with current_state := { core.current_state with commits := commits } }

/-- Modelled from the spec: (T5) `self.commit()` transitions the state
machine to `Committed` (the `backend.finalize` collaborator call carries no
further core state). -/
def Core.commit (core : Core) : Core :=
  { core with state := State.Committed }

/-- `handle` for Commit messages from `commit.rs` (lines 62–85): parse the
subject (panic on malformed payload), read the current subject (panic when
absent), classify the view, recover the sender, verify and accept the
commit, fire the quorum transition when `commits.len() >
two_thirds_majority()` and the state is below `Committed`, and finally
return `Err("")` — the source's unconditional last line. -/
def Core.handleCommit (core : Core) (msg : GossipMessage) (src : Validator) :
    Option (Except String Unit × Core) :=
  match Subject.from_bytes msg.msg with
  | none => none
  | some subject =>
    match core.current_state.subject with
    | none => none
    | some _current_subject =>
      match core.check_message MessageType.Commit subject.view with
      | .error e => some (.error e, core)
      | .ok _ =>
        match msg.address with
        | .error reason => some (.error reason, core)
        | .ok sender =>
          match core.verify_commit msg.commit_seal subject sender src with
          | none => none
          | some (.error e) => some (.error e, core)
          | some (.ok _) =>
            match core.accept msg src with
            | .error e => some (.error e, core)
            | .ok core1 =>
              if core1.current_state.commits.len
                    > core1.val_set.two_thirds_majority
                  ∧ State.lt core1.state State.Committed then
                some (.error "", Core.commit
                  { core1 with current_state := core1.current_state.lock_hash })
              else
                some (.error "", core1)

/-- Cores reachable from an empty commit set by handling any sequence of
Commit messages. -/
inductive ReachableCommit : Core → Prop where
  | init (core : Core) (h : core.current_state.commits.messages = []) :
      ReachableCommit core
  | step (core : Core) (msg : GossipMessage) (src : Validator)
      (r : Except String Unit) (core' : Core) (h : ReachableCommit core)
      (hs : core.handleCommit msg src = some (r, core')) :
      ReachableCommit core'

/-- Sample subject for the concrete runs: view (1, 0), digest 99. -/
def exSubj : Subject := ⟨⟨1, 0⟩, 99⟩

/-- A well-formed Commit message from the validator with secret `k`. -/
def mkCommitMsg (k : Nat) (subj : Subject) : GossipMessage :=
  { msgType := MessageType.Commit
    msg := subj.into_bytes
    signature := some (sign k (MessageType.Commit.toNat :: subj.into_bytes))
    commit_seal := some (sign k (hashBytes subj.digest)) }

/-- Four-validator membership (addresses 1..4), so that
`two_thirds_majority() = 3`. -/
def exValidators : List Address := [1, 2, 3, 4]

/-- A core for the concrete runs: N = 4, proposal at view (1, 0) with digest
99, machine state `st`, and commit votes already collected from the
validators with the secrets in `cs`. -/
def mkCore (st : State) (cs : List Nat) : Core :=
  { keypair := ⟨5⟩
    val_set := ⟨exValidators⟩
    state := st
    current_state :=
      { view := ⟨1, 0⟩
        proposal := some ⟨⟨1, 0⟩, 99⟩
        locked_hash := none
        prepares := ⟨exValidators, []⟩
        commits := ⟨exValidators, cs.map (fun k => (k, mkCommitMsg k exSubj))⟩ }
    outbox := [] }

end Bft

deriving instance DecidableEq for Except

namespace Dpos

/-- C8: decoding the storage encoding of any `TransactionResult` whose error
code (if any) fits in a `u8` yields the same value back:
`TransactionResult::from_bytes(r.into_bytes()) == r`. -/
theorem C8_transaction_result_round_trip (r : TransactionResult)
    (h : r.statusValid) :
    TransactionResult.from_bytes r.into_bytes = some r := by
  cases r with
  | ok => rfl
  | err e =>
    rcases e with ⟨et, d⟩
    cases et with
    | Panic =>
      cases d with
      | none => rfl
      | some s =>
        simp [TransactionResult.into_bytes, TransactionResult.from_bytes,
          TransactionResult.errDescription, status_as_u16, u16_into_bytes,
          u16_from_bytes, bool_into_bytes, bool_from_bytes, decode_main,
          TRANSACTION_STATUS_PANIC, TRANSACTION_STATUS_OK, MAX_ERROR_CODE]
    | Code c =>
      have hc : c ≤ 255 := h
      have h1 : c % 256 = c := Nat.mod_eq_of_lt (by omega)
      have h2 : c / 256 = 0 := Nat.div_eq_of_lt (by omega)
      cases d with
      | none =>
        simp [TransactionResult.into_bytes, TransactionResult.from_bytes,
          TransactionResult.errDescription, status_as_u16, u16_into_bytes,
          u16_from_bytes, bool_into_bytes, bool_from_bytes, decode_main,
          TRANSACTION_STATUS_PANIC, TRANSACTION_STATUS_OK, MAX_ERROR_CODE,
          h1, h2, hc]
      | some s =>
        simp [TransactionResult.into_bytes, TransactionResult.from_bytes,
          TransactionResult.errDescription, status_as_u16, u16_into_bytes,
          u16_from_bytes, bool_into_bytes, bool_from_bytes, decode_main,
          TRANSACTION_STATUS_PANIC, TRANSACTION_STATUS_OK, MAX_ERROR_CODE,
          h1, h2, hc]

/-- Witness for C8 at `Err(Code(7), "A")`. -/
theorem C8_transaction_result_round_trip_witness :
    TransactionResult.from_bytes
        (TransactionResult.into_bytes (.err ⟨.Code 7, some [65]⟩))
      = some (.err ⟨.Code 7, some [65]⟩) :=
  C8_transaction_result_round_trip (.err ⟨.Code 7, some [65]⟩) (by decide)

/-- C9: on the status domain {Ok, Panic, Code(0..=255)} (descriptions
ignored), `status_as_u16` maps Code(c) to c, Ok to 256 and Panic to 257, is
injective, covers exactly `0..=257`, and the decoding match of `from_bytes`
(`decode_main`) is its inverse. -/
theorem C9_status_u16_bijection :
    (∀ s : TxStatus, s.valid → s.as_u16 ≤ 257)
  ∧ (TxStatus.as_u16 .ok = 256 ∧ TxStatus.as_u16 .panic = 257
      ∧ ∀ c : Nat, c ≤ 255 → TxStatus.as_u16 (.code c) = c)
  ∧ (∀ s t : TxStatus, s.valid → t.valid → s.as_u16 = t.as_u16 → s = t)
  ∧ (∀ v : Nat, v ≤ 257 → ∃ s : TxStatus, s.valid ∧ s.as_u16 = v)
  ∧ (∀ (s : TxStatus) (d : Option Bytes), s.valid →
      decode_main s.as_u16 d = some (s.withDescription d)) := by
  refine ⟨?_, ⟨rfl, rfl, ?_⟩, ?_, ?_, ?_⟩
  · intro s hs
    cases s with
    | ok => decide
    | panic => decide
    | code c =>
      have : c ≤ 255 := hs
      simp only [TxStatus.as_u16, TxStatus.withDescription, status_as_u16]
      omega
  · intro c _
    simp [TxStatus.as_u16, TxStatus.withDescription, status_as_u16]
  · intro s t hs ht hst
    cases s <;> cases t <;>
      simp_all [TxStatus.as_u16, TxStatus.withDescription, status_as_u16,
        TxStatus.valid, TRANSACTION_STATUS_OK, TRANSACTION_STATUS_PANIC,
        MAX_ERROR_CODE] <;>
      omega
  · intro v hv
    rcases Nat.lt_or_ge v 256 with hlt | hge
    · exact ⟨.code v, Nat.le_of_lt_succ hlt,
        by simp [TxStatus.as_u16, TxStatus.withDescription, status_as_u16]⟩
    · interval_cases v
      · exact ⟨.ok, trivial, rfl⟩
      · exact ⟨.panic, trivial, rfl⟩
  · intro s d hs
    cases s with
    | ok =>
      simp [TxStatus.as_u16, TxStatus.withDescription, status_as_u16,
        decode_main, TRANSACTION_STATUS_OK, TRANSACTION_STATUS_PANIC,
        MAX_ERROR_CODE]
    | panic =>
      simp [TxStatus.as_u16, TxStatus.withDescription, status_as_u16,
        decode_main, TRANSACTION_STATUS_OK, TRANSACTION_STATUS_PANIC,
        MAX_ERROR_CODE]
    | code c =>
      have : c ≤ 255 := hs
      simp [TxStatus.as_u16, TxStatus.withDescription, status_as_u16,
        decode_main, TRANSACTION_STATUS_OK, TRANSACTION_STATUS_PANIC,
        MAX_ERROR_CODE, this]

/-- Witness for C9: the decoding match inverts `status_as_u16` at
`Code(3)` with a description. -/
theorem C9_status_u16_bijection_witness :
    decode_main (TxStatus.as_u16 (.code 3)) (some [65])
      = some (TxStatus.withDescription (.code 3) (some [65])) :=
  C9_status_u16_bijection.2.2.2.2 (.code 3) (some [65]) (by decide)

/-- C10: `from_bytes` is partial on arbitrary inputs — whenever the leading
`u16` decodes to a value strictly above 257, it panics (`none`) instead of
returning any `TransactionResult`. -/
theorem C10_from_bytes_panics_above_257 (bytes : Bytes) (v : Nat)
    (hv : u16_from_bytes bytes = some v) (h257 : 257 < v) :
    TransactionResult.from_bytes bytes = none := by
  have hdm : ∀ d, decode_main v d = none := by
    intro d
    simp only [decode_main, MAX_ERROR_CODE, TRANSACTION_STATUS_OK,
      TRANSACTION_STATUS_PANIC]
    have h1 : ¬ v ≤ 255 := by omega
    have h2 : ¬ v = 255 + 1 := by omega
    have h3 : ¬ v = 255 + 1 + 1 := by omega
    simp [h1, h2, h3]
  unfold TransactionResult.from_bytes
  rw [hv]
  by_cases hlen : bytes.length ≥ 3
  · obtain ⟨a, t, hat⟩ : ∃ a t, bytes.drop 2 = a :: t := by
      cases hd : bytes.drop 2 with
      | nil =>
        have := List.length_drop 2 bytes
        rw [hd] at this
        simp at this
        omega
      | cons a t => exact ⟨a, t, rfl⟩
    simp [hlen, hat, bool_from_bytes, hdm]
  · simp [hlen]

/-- Witness for C10 at the input `[2, 1, 0]` (leading u16 = 258). -/
theorem C10_from_bytes_panics_above_257_witness :
    TransactionResult.from_bytes [2, 1, 0] = none :=
  C10_from_bytes_panics_above_257 [2, 1, 0] 258 rfl (by omega)

end Dpos

namespace Bft

/-- `sendersContain` is membership of the sender among the collected keys. -/
theorem Votes.sendersContain_eq_false_iff (v : Votes) (a : Address) :
    v.sendersContain a = false ↔ a ∉ v.messages.map Prod.fst := by
  simp [Votes.sendersContain]

/-- A successful `Votes.add` appends the recovered sender's vote; the sender
was fresh and a member of the validator set. -/
theorem Votes.add_ok_inv (v : Votes) (msg : GossipMessage) (v2 : Votes)
    (h : v.add msg = .ok v2) :
    ∃ sender, msg.address = .ok sender ∧ v.sendersContain sender = false ∧
      v.validators.contains sender = true ∧
      v2.validators = v.validators ∧
      v2.messages = v.messages ++ [(sender, msg)] := by
  unfold Votes.add at h
  split at h
  · simp at h
  next sender heq =>
    split at h
    · simp at h
    next hdup =>
      split at h
      next hval =>
        have h2 := Except.ok.inj h
        exact ⟨sender, heq, by simpa using hdup, by simpa using hval,
          by rw [← h2], by rw [← h2]⟩
      · simp at h

/-- A successful `verify_commit` implies the seal was present, the seal
verifies for the sender over the subject's digest bytes, and the subject
matched the current one. -/
theorem Core.verify_commit_ok_inv (core : Core) (cseal : Option Signature)
    (subj : Subject) (sender : Address) (src : Validator) (u : Unit)
    (h : core.verify_commit cseal subj sender src = some (.ok u)) :
    ∃ s, cseal = some s ∧
      verify_address sender s (hashBytes subj.digest) = true ∧
      core.current_state.subject = some subj := by
  cases cseal with
  | none => simp [Core.verify_commit] at h
  | some s =>
    refine ⟨s, rfl, ?_⟩
    simp only [Core.verify_commit] at h
    split at h
    · simp at h
    next hver =>
      have hver' : verify_address sender s (hashBytes subj.digest) = true := by
        cases hb : verify_address sender s (hashBytes subj.digest)
        · exact absurd hb hver
        · rfl
      refine ⟨hver', ?_⟩
      split at h
      · simp at h
      next cs hcs =>
        split at h
        · simp at h
        next hsub =>
          push_neg at hsub
          obtain ⟨h1, h2⟩ := hsub
          rw [hcs]
          cases subj; cases cs
          simp_all

/-- `lock_hash` leaves the commit set untouched. -/
theorem RoundState.lock_hash_commits (rs : RoundState) :
    (rs.lock_hash).commits = rs.commits := by
  unfold RoundState.lock_hash
  split <;> rfl

/-- How one `handle` call can change the commit set: either not at all, or
by appending the vote of the verified sender, which was fresh. -/
theorem Core.handleCommit_commits_evolution (core : Core)
    (msg : GossipMessage) (src : Validator) (r : Except String Unit)
    (core' : Core) (hs : core.handleCommit msg src = some (r, core')) :
    core'.current_state.commits = core.current_state.commits ∨
    ∃ sender subj s,
      msg.address = .ok sender ∧
      core.current_state.commits.sendersContain sender = false ∧
      Subject.from_bytes msg.msg = some subj ∧
      msg.commit_seal = some s ∧
      verify_address sender s (hashBytes subj.digest) = true ∧
      core'.current_state.commits.validators
        = core.current_state.commits.validators ∧
      core'.current_state.commits.messages
        = core.current_state.commits.messages ++ [(sender, msg)] := by
  unfold Core.handleCommit at hs
  split at hs
  · exact absurd hs (by simp)
  next subject hparse =>
    split at hs
    · exact absurd hs (by simp)
    next cs0 hcs =>
      split at hs
      next e hchk =>
        injection Option.some.inj hs with hr hc
        exact Or.inl (by rw [← hc])
      next hchk =>
        split at hs
        next reason haddr =>
          injection Option.some.inj hs with hr hc
          exact Or.inl (by rw [← hc])
        next sender haddr =>
          split at hs
          · exact absurd hs (by simp)
          next e hver =>
            injection Option.some.inj hs with hr hc
            exact Or.inl (by rw [← hc])
          next u hver =>
            split at hs
            next e hacc =>
              injection Option.some.inj hs with hr hc
              exact Or.inl (by rw [← hc])
            next core1 hacc =>
              right
              obtain ⟨commits2, hadd, hcore1⟩ :
                  ∃ commits2,
                    core.current_state.commits.add msg = .ok commits2 ∧
                    core1 = { core with current_state :=
                      { core.current_state with commits := commits2 } } := by
                unfold Core.accept at hacc
                split at hacc
                · simp at hacc
                next commits2 hadd =>
                  exact ⟨commits2, hadd, (Except.ok.inj hacc).symm⟩
              obtain ⟨sender', haddr', hfresh, hval, hvals, hmsgs⟩ :=
                Votes.add_ok_inv _ _ _ hadd
              have hsender : sender' = sender := by
                rw [haddr] at haddr'
                exact (Except.ok.inj haddr').symm
              rw [hsender] at hfresh hmsgs
              obtain ⟨s, hseal, hverify, hsubj⟩ :=
                Core.verify_commit_ok_inv core msg.commit_seal subject
                  sender src u hver
              have hcomm : core'.current_state.commits = commits2 := by
                split at hs
                · injection Option.some.inj hs with hr hc
                  rw [← hc]
                  show (Core.commit { core1 with
                    current_state := core1.current_state.lock_hash
                    }).current_state.commits = commits2
                  simp only [Core.commit]
                  rw [RoundState.lock_hash_commits, hcore1]
                · injection Option.some.inj hs with hr hc
                  rw [← hc, hcore1]
              exact ⟨sender, subject, s, haddr, hfresh, hparse, hseal,
                hverify, by rw [hcomm, hvals], by rw [hcomm, hmsgs]⟩

/-- C1 (code bug): with N = 4 validators, `two_thirds_majority()` is 3, yet
a third valid Commit — reaching exactly the threshold — does not set the
locked hash or fire the transition to `Committed`, because the source
compares `commits.len() > two_thirds_majority()` instead of `≥`; only a
fourth Commit fires it. -/
theorem C1_quorum_transition_off_by_one :
    (mkCore State.Prepared [1, 2]).val_set.two_thirds_majority = 3
  ∧ ((mkCore State.Prepared [1, 2]).handleCommit (mkCommitMsg 3 exSubj)
        ⟨2, 3⟩).map
      (fun p => (p.2.current_state.commits.len, p.2.state,
        p.2.current_state.locked_hash))
      = some (3, State.Prepared, none)
  ∧ ((mkCore State.Prepared [1, 2, 3]).handleCommit (mkCommitMsg 4 exSubj)
        ⟨3, 4⟩).map
      (fun p => (p.2.current_state.commits.len, p.2.state,
        p.2.current_state.locked_hash))
      = some (4, State.Committed, some 99) := by
  decide

/-- C2 (code bug): a Commit that passes every check and is accepted (the
commit set grows from 0 to 1) still makes `handle` return `Err("")` — the
source's unconditional final line — instead of ok. -/
theorem C2_success_path_returns_error :
    ((mkCore State.Preprepared []).handleCommit (mkCommitMsg 1 exSubj)
        ⟨0, 1⟩).map
      (fun p => (p.1, p.2.current_state.commits.len))
      = some (Except.error "", 1) := by
  decide

/-- C3: `verify_commit` succeeds exactly when the seal is present, the seal
verifies for the sender over the subject's digest alone, and the subject
equals the current state's subject; the three checks fail in that order
with the source's messages for `MissingSeal`, `SealSenderMismatch` and
`InconsistentSubject`. -/
theorem C3_verify_commit_checks (core : Core) (cseal : Option Signature)
    (subj : Subject) (sender : Address) (src : Validator) (cs : Subject)
    (hcs : core.current_state.subject = some cs) :
    (core.verify_commit cseal subj sender src = some (.ok ()) ↔
      (∃ s, cseal = some s ∧
        verify_address sender s (hashBytes subj.digest) = true) ∧ subj = cs)
  ∧ (cseal = none →
      core.verify_commit cseal subj sender src
        = some (.error "commit seal is nil"))
  ∧ (∀ s, cseal = some s →
      verify_address sender s (hashBytes subj.digest) = false →
      core.verify_commit cseal subj sender src
        = some (.error "message's sender should be commit seal"))
  ∧ (∀ s, cseal = some s →
      verify_address sender s (hashBytes subj.digest) = true →
      subj ≠ cs →
      core.verify_commit cseal subj sender src
        = some (.error "Inconsistent subjects between commit and proposal"))
    := by
  refine ⟨⟨?_, ?_⟩, ?_, ?_, ?_⟩
  · intro h
    obtain ⟨s, hseal, hv, hsubj⟩ :=
      Core.verify_commit_ok_inv core cseal subj sender src () h
    rw [hcs] at hsubj
    exact ⟨⟨s, hseal, hv⟩, (Option.some.inj hsubj).symm⟩
  · rintro ⟨⟨s, rfl, hv⟩, rfl⟩
    simp [Core.verify_commit, hcs, hv]
  · rintro rfl
    rfl
  · rintro s rfl hv
    simp [Core.verify_commit, hv]
  · rintro s rfl hv hne
    have hcond : cs.digest ≠ subj.digest ∨ cs.view ≠ subj.view := by
      by_contra hcon
      push_neg at hcon
      refine hne ?_
      obtain ⟨h1, h2⟩ := hcon
      cases subj; cases cs
      simp_all
    simp [Core.verify_commit, hcs, hv, hcond]

/-- Witness for C3: a missing seal at a concrete core yields the
MissingSeal error. -/
theorem C3_verify_commit_checks_witness :
    (mkCore State.Prepared []).verify_commit none exSubj 3 ⟨2, 3⟩
      = some (.error "commit seal is nil") :=
  (C3_verify_commit_checks (mkCore State.Prepared []) none exSubj 3 ⟨2, 3⟩
    exSubj rfl).2.1 rfl

/-- C4: every Commit the core broadcasts — via `send_commit` for the
current proposal or via `send_commit_for_old_block` for a prior view —
carries a commit seal signed with the node's own key over the subject's
digest bytes alone (which differ from the encoded Subject), and a payload
that is the canonical Subject encoding. -/
theorem C4_broadcast_commit_shape (core : Core) (view : View) (digest : Hash)
    (core' : Core) (subj : Subject)
    (hsend : core.send_commit = some core')
    (hsubj : core.current_state.subject = some subj) :
    ((core.send_commit_for_old_block view digest).outbox
      = core.outbox ++ [{
          msgType := MessageType.Commit
          msg := Subject.into_bytes ⟨view, digest⟩
          signature := some (sign core.keypair.secret
            (MessageType.Commit.toNat :: Subject.into_bytes ⟨view, digest⟩))
          commit_seal :=
            some (encrypt_commit_bytes digest core.keypair.secret) }])
  ∧ (core'.outbox
      = core.outbox ++ [{
          msgType := MessageType.Commit
          msg := subj.into_bytes
          signature := some (sign core.keypair.secret
            (MessageType.Commit.toNat :: subj.into_bytes))
          commit_seal :=
            some (encrypt_commit_bytes subj.digest core.keypair.secret) }])
  ∧ encrypt_commit_bytes digest core.keypair.secret
      = sign core.keypair.secret (hashBytes digest)
  ∧ (encrypt_commit_bytes digest core.keypair.secret).data
      ≠ Subject.into_bytes ⟨view, digest⟩ := by
  refine ⟨rfl, ?_, rfl, ?_⟩
  · unfold Core.send_commit at hsend
    cases hp : core.current_state.proposal with
    | none =>
      rw [hp] at hsend
      simp [RoundState.subject, hp] at hsend
    | some p =>
      have hsubj2 : core.current_state.subject
          = some ⟨core.current_state.view, p.blockHash⟩ := by
        simp [RoundState.subject, hp]
      rw [hsubj2] at hsubj
      have hse : subj = ⟨core.current_state.view, p.blockHash⟩ :=
        (Option.some.inj hsubj).symm
      subst hse
      rw [hp, hsubj2] at hsend
      rw [← Option.some.inj hsend]
      rfl
  · simp [encrypt_commit_bytes, sign, hashBytes, Subject.into_bytes]

/-- Witness for C4 at a concrete core with a proposal. -/
theorem C4_broadcast_commit_shape_witness :
    (encrypt_commit_bytes 7 (mkCore State.Prepared []).keypair.secret).data
      ≠ Subject.into_bytes ⟨⟨0, 0⟩, 7⟩ :=
  (C4_broadcast_commit_shape (mkCore State.Prepared []) ⟨0, 0⟩ 7
    ((mkCore State.Prepared []).broadcast_commit exSubj 99) exSubj rfl
    rfl).2.2.2

/-- C5: when `check_message` rejects the view of an inbound Commit (stale,
future, or any other failure), `handle` returns that very error and the
returned core is the input core — commits, state-machine state and locked
hash all unchanged.  The two hypotheses exclude the panics that precede
the check in the source (malformed payload, absent current subject). -/
theorem C5_failed_check_message_no_mutation (core : Core)
    (msg : GossipMessage) (src : Validator) (subj : Subject) (e : String)
    (hparse : Subject.from_bytes msg.msg = some subj)
    (hsubj : (core.current_state.subject).isSome = true)
    (hchk : core.check_message MessageType.Commit subj.view = .error e) :
    core.handleCommit msg src = some (.error e, core) := by
  obtain ⟨cs, hcso⟩ := Option.isSome_iff_exists.mp hsubj
  simp only [Core.handleCommit, hparse, hcso, hchk]

/-- Witness for C5: a stale Commit (view (0,0) against current view (1,0))
is rejected with "stale" and the core comes back unchanged. -/
theorem C5_failed_check_message_no_mutation_witness :
    (mkCore State.Prepared []).handleCommit
        (mkCommitMsg 3 ⟨⟨0, 0⟩, 99⟩) ⟨2, 3⟩
      = some (.error "stale", mkCore State.Prepared []) :=
  C5_failed_check_message_no_mutation (mkCore State.Prepared [])
    (mkCommitMsg 3 ⟨⟨0, 0⟩, 99⟩) ⟨2, 3⟩ ⟨⟨0, 0⟩, 99⟩ "stale" rfl rfl rfl

/-- C6: along any sequence of handled Commit messages the commit set never
holds two votes from one sender: reachable sets have pairwise-distinct
senders; an `add` whose sender is already present fails with `Duplicate`
(the set is not replaced); and a `handle` call for such a sender leaves
the set's length unchanged. -/
theorem C6_commits_no_duplicate_sender :
    (∀ core : Core, ReachableCommit core →
      (core.current_state.commits.messages.map Prod.fst).Nodup)
  ∧ (∀ (v : Votes) (msg : GossipMessage) (sender : Address),
      msg.address = .ok sender → v.sendersContain sender = true →
      v.add msg = .error "Duplicate")
  ∧ (∀ (core : Core) (msg : GossipMessage) (src : Validator)
      (r : Except String Unit) (core' : Core) (sender : Address),
      core.handleCommit msg src = some (r, core') →
      msg.address = .ok sender →
      core.current_state.commits.sendersContain sender = true →
      core'.current_state.commits.len = core.current_state.commits.len)
    := by
  refine ⟨?_, ?_, ?_⟩
  · intro core h
    induction h with
    | init c h0 => rw [h0]; simp
    | step c msg src r c' h hs ih =>
      rcases Core.handleCommit_commits_evolution c msg src r c' hs with
        he | ⟨sender, subj, s, ha, hfresh, hp, hsl, hv, hvals, hmsgs⟩
      · rw [he]; exact ih
      · rw [hmsgs, List.map_append]
        refine List.Nodup.append ih (by simp) ?_
        intro a ha1 ha2
        have ha3 : a = sender := by simpa using ha2
        subst ha3
        exact (Votes.sendersContain_eq_false_iff _ _).mp hfresh ha1
  · intro v msg sender ha hdup
    unfold Votes.add
    rw [ha]
    simp [hdup]
  · intro c msg src r c' sender hs ha hdup
    rcases Core.handleCommit_commits_evolution c msg src r c' hs with
      he | ⟨sender', subj, s, ha', hfresh, hp, hsl, hv, hvals, hmsgs⟩
    · unfold Votes.len
      rw [he]
    · have hss : sender' = sender := by
        rw [ha] at ha'
        exact (Except.ok.inj ha').symm
      rw [hss] at hfresh
      rw [hdup] at hfresh
      exact absurd hfresh (by simp)

/-- Witness for C6: a second vote from sender 2 is rejected as a
duplicate. -/
theorem C6_commits_no_duplicate_sender_witness :
    Votes.add ⟨exValidators, [(2, mkCommitMsg 2 exSubj)]⟩
        (mkCommitMsg 2 exSubj)
      = .error "Duplicate" :=
  C6_commits_no_duplicate_sender.2.1
    ⟨exValidators, [(2, mkCommitMsg 2 exSubj)]⟩ (mkCommitMsg 2 exSubj) 2
    rfl rfl

/-- C7: in every reachable core, every vote in the commit set binds its
stored sender: the seal recovers, over the digest of the vote's own
subject, to exactly that sender — `handle` accepts only after
`verify_commit` succeeds. -/
theorem C7_accepted_commit_seal_binds_sender (core : Core)
    (h : ReachableCommit core) :
    ∀ p ∈ core.current_state.commits.messages,
      ∃ subj s, Subject.from_bytes p.2.msg = some subj ∧
        p.2.commit_seal = some s ∧
        recover s (hashBytes subj.digest) = some p.1 := by
  induction h with
  | init c h0 =>
    intro p hp
    rw [h0] at hp
    cases hp
  | step c msg src r c' h hs ih =>
    rcases Core.handleCommit_commits_evolution c msg src r c' hs with
      he | ⟨sender, subj, s, ha, hfresh, hparse, hseal, hv, hvals, hmsgs⟩
    · rw [he]; exact ih
    · intro p hp
      rw [hmsgs] at hp
      rcases List.mem_append.mp hp with hp1 | hp1
      · exact ih p hp1
      · have hp2 : p = (sender, msg) := by simpa using hp1
        subst hp2
        refine ⟨subj, s, hparse, hseal, ?_⟩
        unfold verify_address at hv
        exact eq_of_beq hv

/-- Witness for C7: after one handled Commit from validator 1, its stored
vote satisfies the seal/sender binding. -/
theorem C7_accepted_commit_seal_binds_sender_witness :
    ∃ subj s,
      Subject.from_bytes (mkCommitMsg 1 exSubj).msg = some subj ∧
      (mkCommitMsg 1 exSubj).commit_seal = some s ∧
      recover s (hashBytes subj.digest) = some 1 :=
  C7_accepted_commit_seal_binds_sender (mkCore State.Prepared [1])
    (ReachableCommit.step (mkCore State.Prepared []) (mkCommitMsg 1 exSubj)
      ⟨0, 1⟩ (.error "") (mkCore State.Prepared [1])
      (ReachableCommit.init (mkCore State.Prepared []) rfl)
      (by decide))
    (1, mkCommitMsg 1 exSubj) (by decide)

end Bft
